import Mathlib

/-!
# Verification of the dataswipe column-profiling and matching engine

Shallow embedding of the Go sources (`matcher/profiler.go`, `matcher/similarity.go`
and the matcher/scoring revision containing `matchProfile`, `match`, `overlapScore`,
`uniqueScore`, `nullSimilarityScore`, `baseTypeScore`, `sameFamily`, `castableLossy`).

Modelling conventions:
* `float64` is embedded as `ℚ`; all constants in the scoring code
  (0.3, 0.25, 0.2, 0.15, 0.1, 0.8, 1e-6, 100) are exactly representable.
  The one place where Go float semantics is not plain field arithmetic —
  `0/0 = NaN` inside `overlapScore`, whose `NaN >= threshold` comparison is
  false — is modelled explicitly by a guard in `fuzzyMatched`.
* Go strings are embedded as `String` (= packed `List Char`).  The code mixes
  `len(s)` (bytes) and `len([]rune(s))` (runes); both are modelled as
  `s.data.length`, which coincides with the Go values on ASCII data.
  `strings.ToLower` is modelled as ASCII lowercasing (`Char.toLower`).
* Go map *contents* are deterministic, so sets are modelled as duplicate-free
  lists in first-insertion order (`goSet`); map *iteration order* is
  unspecified in Go, so wherever the code's result can depend on it the order
  is taken as a parameter (`matchProfileWithOrder`) and the canonical
  `matchProfile` fixes insertion order.
* `lev.DistanceForStrings(_, _, lev.DefaultOptions)` has unit insert/delete/
  substitute costs, i.e. Mathlib's `levenshtein Levenshtein.defaultCost`.
* The `Dtype` Go string type is embedded as an inductive with one constructor
  per declared constant plus `unset` for the zero value `""`: profiles are
  built only by `populateTableInfo`, which stores a validated constant or
  leaves the zero value, so these 25 strings are the only reachable values.
* `ColumnProfileID` (sha256 of the canonical JSON serialization of a profile)
  is used by the code purely as an identity surrogate for deduplication; it is
  modelled as the profile value itself, i.e. the digest is assumed injective.
  The `Stats any` field of `ColumnProfile` is omitted: it is never populated
  (it stays `nil` in every builder step), so it carries no information.
-/

/-- The closed DuckDB type enumeration from `profiler.go`, plus `unset` for the
Go zero value `""` of the string-typed `Dtype` (the state of a profile whose
declared-type string failed validation). -/
inductive Dtype where
  | bigint | bit | blob | boolean | date | decimal | double | float
  | hugeint | integer | interval | json | smallint | time | timestampTZ
  | timestamp | tinyint | ubigint | uhugeint | uinteger | usmallint
  | utinyint | uuid | varchar
  | unset
deriving DecidableEq, Repr, Fintype

/-- Maps the 24 valid DuckDB type labels to their `Dtype` constant
(the `Dtype`-constant block of `profiler.go`); any other string is invalid. -/
def dtypeOfString? (s : String) : Option Dtype :=
  if s = "BIGINT" then some .bigint
  else if s = "BIT" then some .bit
  else if s = "BLOB" then some .blob
  else if s = "BOOLEAN" then some .boolean
  else if s = "DATE" then some .date
  else if s = "DECIMAL" then some .decimal
  else if s = "DOUBLE" then some .double
  else if s = "FLOAT" then some .float
  else if s = "HUGEINT" then some .hugeint
  else if s = "INTEGER" then some .integer
  else if s = "INTERVAL" then some .interval
  else if s = "JSON" then some .json
  else if s = "SMALLINT" then some .smallint
  else if s = "TIME" then some .time
  else if s = "TIMESTAMP WITH TIME ZONE" then some .timestampTZ
  else if s = "TIMESTAMP" then some .timestamp
  else if s = "TINYINT" then some .tinyint
  else if s = "UBIGINT" then some .ubigint
  else if s = "UHUGEINT" then some .uhugeint
  else if s = "UINTEGER" then some .uinteger
  else if s = "USMALLINT" then some .usmallint
  else if s = "UTINYINT" then some .utinyint
  else if s = "UUID" then some .uuid
  else if s = "VARCHAR" then some .varchar
  else none

/-- `IsValidDuckDBType` from `profiler.go`: membership in the closed enumeration. -/
def IsValidDuckDBType (s : String) : Bool :=
  (dtypeOfString? s).isSome

/-- `ColumnProfile` from `profiler.go` (the `Stats` field, never populated, is
omitted; see the module docstring). -/
structure ColumnProfile where
  Name : String
  DType : Dtype
  NullPct : ℚ
  UniquePct : ℚ
  Samples : List String
deriving DecidableEq, Repr

/-- The Go zero value `ColumnProfile{}` the builder starts from. -/
def ColumnProfile.zero : ColumnProfile :=
  { Name := "", DType := .unset, NullPct := 0, UniquePct := 0, Samples := [] }

/-- `(cp ColumnProfile) populateTableInfo(name, dtype string)`: sets the name,
and sets the type only when the string validates, otherwise leaves it as is. -/
def ColumnProfile.populateTableInfo (cp : ColumnProfile) (name dtype : String) :
    ColumnProfile :=
  { cp with
    Name := name
    DType := match dtypeOfString? dtype with
             | some t => t
             | none => cp.DType }

/-- `(cp ColumnProfile) populatePcts(nullPct, uniquePct float64)`. -/
def ColumnProfile.populatePcts (cp : ColumnProfile) (nullPct uniquePct : ℚ) :
    ColumnProfile :=
  { cp with NullPct := nullPct, UniquePct := uniquePct }

/-- The numeric family map of `sameFamily`/`castableLossy`. -/
def isNumericDtype : Dtype → Bool
  | .bigint | .hugeint | .integer | .smallint | .tinyint
  | .ubigint | .uhugeint | .uinteger | .usmallint | .utinyint
  | .decimal | .double | .float => true
  | _ => false

/-- The text family map of `sameFamily`/`castableLossy`. -/
def isTextDtype : Dtype → Bool
  | .varchar | .uuid | .json => true
  | _ => false

/-- The temporal family map of `sameFamily`/`castableLossy`. -/
def isTemporalDtype : Dtype → Bool
  | .date | .timestamp | .timestampTZ | .time | .interval => true
  | _ => false

/-- `sameFamily(a, b Dtype) bool`. -/
def sameFamily (a b : Dtype) : Bool :=
  (isNumericDtype a && isNumericDtype b) ||
  (isTextDtype a && isTextDtype b) ||
  (isTemporalDtype a && isTemporalDtype b)

/-- `castableLossy(a, b Dtype) bool`: string ↔ numeric, string ↔ temporal. -/
def castableLossy (a b : Dtype) : Bool :=
  ((isTextDtype a && isNumericDtype b) || (isNumericDtype a && isTextDtype b)) ||
  ((isTextDtype a && isTemporalDtype b) || (isTemporalDtype a && isTextDtype b))

/-- `baseTypeScore(a, b Dtype) float64`. -/
def baseTypeScore (a b : Dtype) : ℚ :=
  if a = b then 1
  else if sameFamily a b then 0.8
  else if castableLossy a b then 0.3
  else 0

example : baseTypeScore .integer .varchar = 0.3 := by with_unfolding_all decide
example : baseTypeScore .boolean .date = 0 := by with_unfolding_all decide
example : baseTypeScore .unset .unset = 1 := by with_unfolding_all decide

/-! ## String primitives (`strings` package operations used by the code) -/

/-- `strings.ToLower`, restricted to ASCII case folding (adequate for the
ASCII column names and sample values this development evaluates on). -/
def toLowerGo (s : String) : String :=
  ⟨s.data.map Char.toLower⟩

/-- The white-space class of `strings.TrimSpace` (ASCII part of `unicode.IsSpace`). -/
def isGoSpace (c : Char) : Bool :=
  c = ' ' || c = '\t' || c = '\n' || c = '\x0b' || c = '\x0c' || c = '\r'

/-- `strings.TrimSpace`: strip leading and trailing white space. -/
def trimSpace (s : String) : String :=
  ⟨((s.data.dropWhile isGoSpace).reverse.dropWhile isGoSpace).reverse⟩

/-- `strings.Contains(s, sub)`: `sub` occurs contiguously inside `s`
(in particular `goContains s "" = true`, as in Go). -/
def goContains (s sub : String) : Bool :=
  (List.range (s.data.length + 1)).any fun i => sub.data.isPrefixOf (s.data.drop i)

/-- `lev.DistanceForStrings([]rune(a), []rune(b), lev.DefaultOptions)`:
Levenshtein distance with unit insert/delete/substitute costs. -/
def levDistance (a b : List Char) : ℕ :=
  levenshtein Levenshtein.defaultCost a b

/-- `strings.FieldsFunc` on the separator class `{'_', '-', ' '}` used by
`tokenize`: split, dropping the separators and any empty fields. -/
def fieldsSep (l : List Char) : List (List Char) :=
  (List.splitOnP (fun c => c = '_' || c = '-' || c = ' ') l).filter
    (fun part => !part.isEmpty)

/-- The "crude camelCase splitter" loop body of `tokenize`: `cur` is the
accumulated current token, `rest` the characters still to process.  A split
happens before an upper-case ASCII letter at position `i > 0`; each finished
token is lower-cased as it is emitted. -/
def camelAux (cur : List Char) : List Char → List (List Char)
  | [] => if cur.isEmpty then [] else [cur.map Char.toLower]
  | r :: rs =>
      if 'A' ≤ r && r ≤ 'Z' then
        (cur.map Char.toLower) :: camelAux [r] rs
      else
        camelAux (cur ++ [r]) rs

/-- One `parts` element of `tokenize` run through the camelCase splitter
(the `i > 0` guard means the first character never triggers a split). -/
def camelSplit : List Char → List (List Char)
  | [] => []
  | c :: rest => camelAux [c] rest

/-- `tokenize(name string) []string` from `similarity.go`.  Note the source
lower-cases the whole name *before* the camelCase splitter runs, so the
upper-case test of `camelAux` can never fire. -/
def tokenize (name : String) : List (List Char) :=
  (fieldsSep (toLowerGo name).data).flatMap camelSplit

/-- Models inserting a value into a Go `map[K]struct{}` used as a set:
duplicate-free list in first-insertion order. -/
def insertDistinct (acc : List (List Char)) (v : List Char) : List (List Char) :=
  if v ∈ acc then acc else acc ++ [v]

/-- Models building a Go set from a list of insertions. -/
def goSet (l : List (List Char)) : List (List Char) :=
  l.foldl insertDistinct []

/-- `jaccard(tokens1, tokens2 []string) float64` from `similarity.go`:
`|set1 ∩ set2| / |set1 ∪ set2|`, `0` when the union is empty (the Go map
cardinalities do not depend on iteration order, so the set model is exact). -/
def jaccard (tokens1 tokens2 : List (List Char)) : ℚ :=
  let set1 := goSet tokens1
  let set2 := goSet tokens2
  let intersect := (set1.filter (fun t => t ∈ set2)).length
  let unionSet := goSet (set1 ++ set2)
  if unionSet.length = 0 then 0
  else (intersect : ℚ) / (unionSet.length : ℚ)

/-- `columnNameScore(name1, name2 string) float64` from `similarity.go`:
exact match 1.0; substring containment 0.8; otherwise the best of token
Jaccard and normalized edit-distance similarity.  (`len([]rune(s))` is
modelled as `s.data.length`.) -/
def columnNameScore (name1 name2 : String) : ℚ :=
  let n1 := toLowerGo name1
  let n2 := toLowerGo name2
  if n1 = n2 then 1
  else if goContains n1 n2 || goContains n2 n1 then 0.8
  else
    let tokenScore := jaccard (tokenize name1) (tokenize name2)
    let dist := levDistance n1.data n2.data
    let maxLen : ℚ :=
      if n2.data.length > n1.data.length then (n2.data.length : ℚ)
      else (n1.data.length : ℚ)
    let editScore := 1 - (dist : ℚ) / maxLen
    max tokenScore editScore

example : columnNameScore "customer_id" "customer_id" = 1 := by
  with_unfolding_all decide
example : columnNameScore "customer_id" "customer_identifier" = 0.8 := by
  with_unfolding_all decide
example : columnNameScore "first_name" "firstName" = 0.9 := by
  with_unfolding_all decide

/-! ## Value-set overlap (`overlapScore`) -/

/-- The normalization applied to each sample value in `overlapScore`:
`strings.ToLower(strings.TrimSpace(v))`. -/
def normVal (v : String) : List Char :=
  (toLowerGo (trimSpace v)).data

/-- The edit-distance similarity computed for a candidate pair inside
`overlapScore`: `1 - dist/maxLen` (`maxLen` from `len(v1)`/`len(v2)`). -/
def valueEditSim (v1 v2 : List Char) : ℚ :=
  let dist := levDistance v1 v2
  let maxLen : ℚ := if v2.length > v1.length then (v2.length : ℚ) else (v1.length : ℚ)
  1 - (dist : ℚ) / maxLen

/-- The `score >= threshold` test of `overlapScore`.  When both values are
empty Go computes `1 - 0.0/0.0 = NaN` and `NaN >= threshold` is false, which
the first branch makes explicit. -/
def fuzzyMatched (threshold : ℚ) (v1 v2 : List Char) : Bool :=
  if v1.isEmpty && v2.isEmpty then false
  else decide (valueEditSim v1 v2 ≥ threshold)

/-- The inner `for v2 := range set2` scan of `overlapScore` for a fixed `v1`:
each examined `v2` is added to `union`, and the scan *breaks at the first
fuzzy match*, leaving later elements of `set2` unexamined (and absent from
`union`).  Returns whether a match was found and the updated union. -/
def scanMatch (threshold : ℚ) (v1 : List Char) :
    List (List Char) → List (List Char) → Bool × List (List Char)
  | [], unionAcc => (false, unionAcc)
  | v2 :: rest, unionAcc =>
      let unionAcc' := insertDistinct unionAcc v2
      if fuzzyMatched threshold v1 v2 then (true, unionAcc')
      else scanMatch threshold v1 rest unionAcc'

/-- The `for v1 := range set1` body of `overlapScore`: add `v1` to the union,
scan `set2`, and bump `intersect` on a match. -/
def overlapStep (threshold : ℚ) (set2 : List (List Char))
    (st : ℕ × List (List Char)) (v1 : List Char) : ℕ × List (List Char) :=
  let unionAcc := insertDistinct st.2 v1
  let res := scanMatch threshold v1 set2 unionAcc
  (if res.1 then st.1 + 1 else st.1, res.2)

/-- `overlapScore(left, right []string, threshold float64) float64`.  Go map
iteration order is modelled as first-insertion order (see module docstring);
because of the early `break`, the resulting `union` — the score's denominator —
need not contain all normalized values of both sides. -/
def overlapScore (left right : List String) (threshold : ℚ) : ℚ :=
  let set1 := goSet (left.map normVal)
  let set2 := goSet (right.map normVal)
  let res := set1.foldl (overlapStep threshold set2) (0, [])
  if res.2.length = 0 then 0
  else (res.1 : ℚ) / (res.2.length : ℚ)

example : overlapScore ["a", "b"] ["a", "b"] 0.8 = 1 := by with_unfolding_all decide
example : overlapScore ["aaaaa"] ["aaaaa", "aaaab", "aaaac"] 0.8 = 1 := by
  with_unfolding_all decide
example : overlapScore [] ["b"] 0.8 = 0 := by with_unfolding_all decide

/-! ## Scalar similarity and the composite score -/

/-- `uniqueScore(left, right float64) float64`:
`1 - |l-r| / max(l, r, 1e-6)`. -/
def uniqueScore (left right : ℚ) : ℚ :=
  let denom := max (max left right) (1/1000000)
  1 - |left - right| / denom

/-- `nullSimilarityScore(left, right float64) float64`: `1 - |l-r|/100`. -/
def nullSimilarityScore (left right : ℚ) : ℚ :=
  1 - |left - right| / 100

/-- `ColumnProfilePairScores` (score plus the two profiles scored). -/
structure ColumnProfilePairScores where
  Score : ℚ
  Left : ColumnProfile
  Right : ColumnProfile
deriving DecidableEq, Repr

/-- `match(left, right ColumnProfile) ColumnProfilePairScores` (named
`matchColumns` here because `match` is a Lean keyword): the five-factor
weighted composite score. -/
def matchColumns (left right : ColumnProfile) : ColumnProfilePairScores :=
  let typeScore := baseTypeScore left.DType right.DType
  let nullScore := nullSimilarityScore left.NullPct right.NullPct
  let uniqScore := uniqueScore left.UniquePct right.UniquePct
  let ovScore := overlapScore left.Samples right.Samples 0.8
  let nameScore := columnNameScore left.Name right.Name
  { Score := 0.3 * nameScore + 0.25 * typeScore + 0.2 * uniqScore +
      0.15 * ovScore + 0.1 * nullScore
    Left := left
    Right := right }

/-! ## Pair identity, deduplication, and the matcher -/

/-- `ColumnProfileID`: the sha256-hex fingerprint of the canonically
serialized profile, used solely as an identity surrogate; modelled by the
profile value itself (i.e. the digest is assumed collision-free). -/
abbrev ColumnProfileID := ColumnProfile

/-- `NewColumnProfileID(cp ColumnProfile)`. -/
def NewColumnProfileID (cp : ColumnProfile) : ColumnProfileID := cp

/-- `ColumnProfilePair`: an ordered pair of profile fingerprints. -/
structure ColumnProfilePair where
  Left : ColumnProfileID
  Right : ColumnProfileID
deriving DecidableEq, Repr

/-- `NewColumnProfilePair(left, right ColumnProfile)`. -/
def NewColumnProfilePair (left right : ColumnProfile) : ColumnProfilePair :=
  { Left := NewColumnProfileID left, Right := NewColumnProfileID right }

/-- One entry of the `scores` map of `matchProfile` (key–value pair); the map
is modelled as an association list in insertion order. -/
abbrev ScoreEntry := ColumnProfilePair × ColumnProfilePairScores

/-- Key lookup `_, exists := scores[k]`. -/
def hasKey (scores : List ScoreEntry) (k : ColumnProfilePair) : Bool :=
  scores.any fun e => e.1 = k

/-- The body of the nested loops of `matchProfile`: skip the pair if it or its
mirror was already scored, otherwise score it. -/
def matchStep (scores : List ScoreEntry) (l r : ColumnProfile) : List ScoreEntry :=
  if hasKey scores (NewColumnProfilePair l r) then scores
  else if hasKey scores (NewColumnProfilePair r l) then scores
  else scores ++ [(NewColumnProfilePair l r, matchColumns l r)]

/-- The ordered cross product the nested `for` loops of `matchProfile` iterate
over (left index outer, right index inner). -/
def crossPairs (leftCps rightCps : List ColumnProfile) :
    List (ColumnProfile × ColumnProfile) :=
  leftCps.flatMap fun l => rightCps.map fun r => (l, r)

/-- The fully populated `scores` map of `matchProfile`. -/
def buildScores (leftCps rightCps : List ColumnProfile) : List ScoreEntry :=
  (crossPairs leftCps rightCps).foldl (fun acc p => matchStep acc p.1 p.2) []

/-- The descending-by-score order used by `sort.Slice`'s `less` function. -/
def scoreGE (x y : ColumnProfilePairScores) : Prop :=
  y.Score ≤ x.Score

instance : DecidableRel scoreGE := fun x y =>
  inferInstanceAs (Decidable (y.Score ≤ x.Score))

instance : IsTotal ColumnProfilePairScores scoreGE :=
  ⟨fun a b => le_total b.Score a.Score⟩

instance : IsTrans ColumnProfilePairScores scoreGE :=
  ⟨fun _ _ _ hab hbc => le_trans hbc hab⟩

/-- The `sort.Slice(results, …Score > …Score)` call: a sort that is
non-increasing in score.  (For the list lengths arising in the concrete
refutations below — at most three elements, at most two of them tied — every
comparison-based sort, including Go's unstable pdqsort, produces the same
output as this insertion sort.) -/
def sortByScoreDesc (l : List ColumnProfilePairScores) : List ColumnProfilePairScores :=
  List.insertionSort scoreGE l

/-- `matchProfile(leftCps, rightCps []ColumnProfile)` with the order in which
`for _, v := range scores` presents the map's values made explicit: Go leaves
map iteration order unspecified, so each run of the program corresponds to
some `present` that permutes the collected values. -/
def matchProfileWithOrder
    (present : List ColumnProfilePairScores → List ColumnProfilePairScores)
    (leftCps rightCps : List ColumnProfile) : List ColumnProfilePairScores :=
  sortByScoreDesc (present ((buildScores leftCps rightCps).map Prod.snd))

/-- `matchProfile` with the canonical (insertion-order) presentation. -/
def matchProfile (leftCps rightCps : List ColumnProfile) :
    List ColumnProfilePairScores :=
  matchProfileWithOrder id leftCps rightCps

/-! ## Basic lemmas about the embedded primitives -/

theorem levDistance_nil_left (b : List Char) : levDistance [] b = b.length := by
  induction b with
  | nil => rfl
  | cons y ys ih =>
      rw [levDistance] at ih ⊢
      rw [levenshtein_nil_cons, ih]
      simp [Levenshtein.defaultCost]
      omega

theorem levDistance_nil_right (a : List Char) : levDistance a [] = a.length := by
  induction a with
  | nil => rfl
  | cons x xs ih =>
      rw [levDistance] at ih ⊢
      rw [levenshtein_cons_nil, ih]
      simp [Levenshtein.defaultCost]
      omega

/-- The Levenshtein distance with unit costs is at most the longer length. -/
theorem levDistance_le_max (a b : List Char) :
    levDistance a b ≤ max a.length b.length := by
  induction a generalizing b with
  | nil => rw [levDistance_nil_left]; exact le_max_right _ _
  | cons x xs iha =>
      induction b with
      | nil => rw [levDistance_nil_right]; exact le_max_left _ _
      | cons y ys ihb =>
          have hsub : levDistance (x :: xs) (y :: ys) ≤
              (if x = y then 0 else 1) + levDistance xs ys := by
            rw [levDistance, levenshtein_cons_cons]
            refine le_trans (min_le_right _ _) (le_trans (min_le_right _ _) ?_)
            simp [Levenshtein.defaultCost, levDistance]
          have hxs := iha ys
          have : (if x = y then 0 else 1) ≤ 1 := by split <;> omega
          simp only [List.length_cons]
          omega

theorem goContains_empty_sub (s : String) : goContains s "" = true := by
  rw [goContains]
  refine List.any_eq_true.mpr ⟨0, ?_, ?_⟩
  · exact List.mem_range.mpr (Nat.succ_pos _)
  · simp [List.isPrefixOf_nil_left]

theorem toLowerGo_data_length (s : String) :
    (toLowerGo s).data.length = s.data.length := by
  simp [toLowerGo]

/-- In the final branch of `columnNameScore` both lower-cased names are
non-empty: an empty needle would have made the substring test succeed. -/
theorem data_ne_nil_of_not_goContains {s sub : String}
    (h : goContains s sub = false) : sub.data ≠ [] := by
  intro hnil
  have : goContains s sub = true := by
    rw [goContains]
    refine List.any_eq_true.mpr ⟨0, List.mem_range.mpr (Nat.succ_pos _), ?_⟩
    simp [hnil]
  simp [this] at h

theorem insertDistinct_nodup {acc : List (List Char)} (v : List Char)
    (h : acc.Nodup) : (insertDistinct acc v).Nodup := by
  rw [insertDistinct]
  split
  · exact h
  · next hv => exact List.Nodup.append h (List.nodup_singleton v) (by simpa using hv)

theorem mem_insertDistinct_self (acc : List (List Char)) (v : List Char) :
    v ∈ insertDistinct acc v := by
  rw [insertDistinct]; split
  · assumption
  · simp

theorem mem_insertDistinct_of_mem {acc : List (List Char)} {x : List Char}
    (v : List Char) (h : x ∈ acc) : x ∈ insertDistinct acc v := by
  rw [insertDistinct]; split
  · exact h
  · simp [h]

theorem goSet_foldl_nodup (l : List (List Char)) :
    ∀ acc : List (List Char), acc.Nodup → (l.foldl insertDistinct acc).Nodup := by
  induction l with
  | nil => intro acc h; exact h
  | cons v vs ih => intro acc h; exact ih _ (insertDistinct_nodup v h)

theorem goSet_nodup (l : List (List Char)) : (goSet l).Nodup :=
  goSet_foldl_nodup l [] List.nodup_nil

theorem mem_foldl_insertDistinct_of_mem_acc (l : List (List Char)) :
    ∀ acc : List (List Char), ∀ x ∈ acc, x ∈ l.foldl insertDistinct acc := by
  induction l with
  | nil => intro acc x hx; exact hx
  | cons v vs ih => intro acc x hx; exact ih _ x (mem_insertDistinct_of_mem v hx)

theorem mem_foldl_insertDistinct (l : List (List Char)) :
    ∀ acc : List (List Char), ∀ x ∈ l, x ∈ l.foldl insertDistinct acc := by
  induction l with
  | nil => intro acc x hx; cases hx
  | cons v vs ih =>
      intro acc x hx
      rcases List.mem_cons.mp hx with rfl | hmem
      · exact mem_foldl_insertDistinct_of_mem_acc vs _ x (mem_insertDistinct_self acc x)
      · exact ih _ x hmem

theorem mem_goSet_of_mem {l : List (List Char)} {x : List Char} (h : x ∈ l) :
    x ∈ goSet l :=
  mem_foldl_insertDistinct l [] x h

theorem jaccard_nonneg (t1 t2 : List (List Char)) : 0 ≤ jaccard t1 t2 := by
  rw [jaccard]
  split
  · exact le_refl 0
  · positivity

theorem jaccard_le_one (t1 t2 : List (List Char)) : jaccard t1 t2 ≤ 1 := by
  rw [jaccard]
  split
  · exact zero_le_one
  · next hne =>
      rw [div_le_one (by positivity)]
      have hsub : (goSet t1).filter (fun t => t ∈ goSet t2) ⊆ goSet (goSet t1 ++ goSet t2) := by
        intro x hx
        exact mem_goSet_of_mem (List.mem_append_left _ (List.mem_of_mem_filter hx))
      have hnodup : ((goSet t1).filter (fun t => t ∈ goSet t2)).Nodup :=
        List.Nodup.filter _ (goSet_nodup t1)
      have := (hnodup.subperm hsub).length_le
      exact_mod_cast this

/-! ## Score components lie in the unit interval -/

theorem columnNameScore_mem_unit (name1 name2 : String) :
    0 ≤ columnNameScore name1 name2 ∧ columnNameScore name1 name2 ≤ 1 := by
  simp only [columnNameScore]
  split_ifs with h1 h2 h3
  · norm_num
  · norm_num
  · rw [Bool.or_eq_true, not_or] at h2
    obtain ⟨hc1, hc2⟩ := h2
    rw [Bool.not_eq_true] at hc1
    have hlen2 : (toLowerGo name2).data ≠ [] := data_ne_nil_of_not_goContains hc1
    have hpos2 : (0 : ℚ) < ((toLowerGo name2).data.length : ℚ) := by
      have h1le : 1 ≤ (toLowerGo name2).data.length :=
        Nat.one_le_iff_ne_zero.mpr (fun h0 => hlen2 (List.length_eq_zero.mp h0))
      exact_mod_cast Nat.lt_of_lt_of_le Nat.zero_lt_one h1le
    have hdiv : (0 : ℚ) ≤
        (levDistance (toLowerGo name1).data (toLowerGo name2).data : ℚ) /
        ((toLowerGo name2).data.length : ℚ) := div_nonneg (by positivity) hpos2.le
    exact ⟨le_trans (jaccard_nonneg _ _) (le_max_left _ _),
      max_le (jaccard_le_one _ _) (by linarith)⟩
  · rw [Bool.or_eq_true, not_or] at h2
    obtain ⟨hc1, hc2⟩ := h2
    rw [Bool.not_eq_true] at hc2
    have hlen1 : (toLowerGo name1).data ≠ [] := data_ne_nil_of_not_goContains hc2
    have hpos1 : (0 : ℚ) < ((toLowerGo name1).data.length : ℚ) := by
      have h1le : 1 ≤ (toLowerGo name1).data.length :=
        Nat.one_le_iff_ne_zero.mpr (fun h0 => hlen1 (List.length_eq_zero.mp h0))
      exact_mod_cast Nat.lt_of_lt_of_le Nat.zero_lt_one h1le
    have hdiv : (0 : ℚ) ≤
        (levDistance (toLowerGo name1).data (toLowerGo name2).data : ℚ) /
        ((toLowerGo name1).data.length : ℚ) := div_nonneg (by positivity) hpos1.le
    exact ⟨le_trans (jaccard_nonneg _ _) (le_max_left _ _),
      max_le (jaccard_le_one _ _) (by linarith)⟩

theorem uniqueScore_mem_unit {l r : ℚ} (hl : 0 ≤ l) (hr : 0 ≤ r) :
    0 ≤ uniqueScore l r ∧ uniqueScore l r ≤ 1 := by
  rw [uniqueScore]
  have hden : (0 : ℚ) < max (max l r) (1/1000000) :=
    lt_of_lt_of_le (by norm_num) (le_max_right _ _)
  have habs : |l - r| ≤ max (max l r) (1/1000000) := by
    refine le_trans ?_ (le_max_left _ _)
    rcases le_total l r with h | h
    · rw [abs_of_nonpos (sub_nonpos.mpr h)]
      have := le_max_right l r
      linarith
    · rw [abs_of_nonneg (sub_nonneg.mpr h)]
      have := le_max_left l r
      linarith
  constructor
  · have : |l - r| / max (max l r) (1/1000000) ≤ 1 := (div_le_one hden).mpr habs
    linarith
  · have : 0 ≤ |l - r| / max (max l r) (1/1000000) :=
      div_nonneg (abs_nonneg _) hden.le
    linarith

theorem nullSimilarityScore_mem_unit {l r : ℚ} (hl0 : 0 ≤ l) (hl1 : l ≤ 100)
    (hr0 : 0 ≤ r) (hr1 : r ≤ 100) :
    0 ≤ nullSimilarityScore l r ∧ nullSimilarityScore l r ≤ 1 := by
  rw [nullSimilarityScore]
  have habs : |l - r| ≤ 100 := by
    rcases le_total l r with h | h
    · rw [abs_of_nonpos (sub_nonpos.mpr h)]; linarith
    · rw [abs_of_nonneg (sub_nonneg.mpr h)]; linarith
  constructor
  · have : |l - r| / 100 ≤ 1 := by
      rw [div_le_one (by norm_num : (0:ℚ) < 100)]; linarith
    linarith
  · have : 0 ≤ |l - r| / 100 := div_nonneg (abs_nonneg _) (by norm_num)
    linarith

theorem baseTypeScore_mem_unit (a b : Dtype) :
    0 ≤ baseTypeScore a b ∧ baseTypeScore a b ≤ 1 := by
  rw [baseTypeScore]
  split_ifs <;> norm_num

theorem scanMatch_union_extend (threshold : ℚ) (v1 : List Char) (l2 : List (List Char)) :
    ∀ u : List (List Char), ∀ x ∈ u, x ∈ (scanMatch threshold v1 l2 u).2 := by
  induction l2 with
  | nil => intro u x h; exact h
  | cons v2 rest ih =>
      intro u x h
      simp only [scanMatch]
      split
      · exact mem_insertDistinct_of_mem v2 h
      · exact ih _ x (mem_insertDistinct_of_mem v2 h)

theorem scanMatch_union_nodup (threshold : ℚ) (v1 : List Char) (l2 : List (List Char)) :
    ∀ u : List (List Char), u.Nodup → (scanMatch threshold v1 l2 u).2.Nodup := by
  induction l2 with
  | nil => intro u h; exact h
  | cons v2 rest ih =>
      intro u h
      simp only [scanMatch]
      split
      · exact insertDistinct_nodup v2 h
      · exact ih _ (insertDistinct_nodup v2 h)

theorem foldl_overlapStep_count (threshold : ℚ) (set2 : List (List Char))
    (l1 : List (List Char)) :
    ∀ st : ℕ × List (List Char),
      (l1.foldl (overlapStep threshold set2) st).1 ≤ st.1 + l1.length := by
  induction l1 with
  | nil => intro st; simp
  | cons v1 rest ih =>
      intro st
      have hstep : (overlapStep threshold set2 st v1).1 ≤ st.1 + 1 := by
        rw [overlapStep]
        split <;> omega
      calc (rest.foldl (overlapStep threshold set2) (overlapStep threshold set2 st v1)).1
          ≤ (overlapStep threshold set2 st v1).1 + rest.length := ih _
        _ ≤ st.1 + (v1 :: rest).length := by simp only [List.length_cons]; omega

theorem foldl_overlapStep_mem_acc (threshold : ℚ) (set2 : List (List Char))
    (l1 : List (List Char)) :
    ∀ st : ℕ × List (List Char), ∀ x ∈ st.2,
      x ∈ (l1.foldl (overlapStep threshold set2) st).2 := by
  induction l1 with
  | nil => intro st x h; exact h
  | cons v1 rest ih =>
      intro st x h
      refine ih _ x ?_
      rw [overlapStep]
      exact scanMatch_union_extend threshold v1 set2 _ x
        (mem_insertDistinct_of_mem v1 h)

theorem foldl_overlapStep_mem (threshold : ℚ) (set2 : List (List Char))
    (l1 : List (List Char)) :
    ∀ st : ℕ × List (List Char), ∀ x ∈ l1,
      x ∈ (l1.foldl (overlapStep threshold set2) st).2 := by
  induction l1 with
  | nil => intro st x h; cases h
  | cons v1 rest ih =>
      intro st x h
      rcases List.mem_cons.mp h with rfl | hmem
      · refine foldl_overlapStep_mem_acc threshold set2 rest _ x ?_
        rw [overlapStep]
        exact scanMatch_union_extend threshold x set2 _ x
          (mem_insertDistinct_self _ x)
      · exact ih _ x hmem

theorem foldl_overlapStep_nodup (threshold : ℚ) (set2 : List (List Char))
    (l1 : List (List Char)) :
    ∀ st : ℕ × List (List Char), st.2.Nodup →
      (l1.foldl (overlapStep threshold set2) st).2.Nodup := by
  induction l1 with
  | nil => intro st h; exact h
  | cons v1 rest ih =>
      intro st h
      refine ih _ ?_
      rw [overlapStep]
      exact scanMatch_union_nodup threshold v1 set2 _ (insertDistinct_nodup v1 h)

theorem overlapScore_mem_unit (left right : List String) (threshold : ℚ) :
    0 ≤ overlapScore left right threshold ∧ overlapScore left right threshold ≤ 1 := by
  simp only [overlapScore]
  split
  · norm_num
  · next hne =>
      set set1 := goSet (left.map normVal) with hset1
      set set2 := goSet (right.map normVal) with hset2
      set res := set1.foldl (overlapStep threshold set2) (0, []) with hres
      have hcount : res.1 ≤ set1.length := by
        have := foldl_overlapStep_count threshold set2 set1 (0, [])
        simpa using this
      have hsubset : set1 ⊆ res.2 := fun x hx =>
        foldl_overlapStep_mem threshold set2 set1 (0, []) x hx
      have hnodres : res.2.Nodup :=
        foldl_overlapStep_nodup threshold set2 set1 (0, []) List.nodup_nil
      have hlen : set1.length ≤ res.2.length :=
        ((goSet_nodup (left.map normVal)).subperm hsubset).length_le
      have hpos : (0 : ℚ) < (res.2.length : ℚ) := by
        have : res.2.length ≠ 0 := hne
        exact_mod_cast Nat.pos_of_ne_zero this
      constructor
      · exact div_nonneg (by positivity) hpos.le
      · rw [div_le_one hpos]
        exact_mod_cast le_trans hcount hlen

/-! ## One score per unordered pair: invariants of the `scores` map -/

/-- A result record covers the unordered profile pair `{l, r}`. -/
def sameUnorderedPair (rec : ColumnProfilePairScores) (l r : ColumnProfile) : Bool :=
  decide ((rec.Left = l ∧ rec.Right = r) ∨ (rec.Left = r ∧ rec.Right = l))

/-- A map entry's key covers the unordered profile pair `{l, r}`. -/
def keyMatches (l r : ColumnProfile) (e : ScoreEntry) : Bool :=
  decide (e.1 = NewColumnProfilePair l r ∨ e.1 = NewColumnProfilePair r l)

/-- At most one entry per unordered pair. -/
def entryBound (acc : List ScoreEntry) : Prop :=
  ∀ p q : ColumnProfile, acc.countP (keyMatches p q) ≤ 1

theorem hasKey_false_iff (scores : List ScoreEntry) (k : ColumnProfilePair) :
    hasKey scores k = false ↔ ∀ e ∈ scores, e.1 ≠ k := by
  rw [hasKey]
  simp [List.any_eq_true]

theorem matchStep_countP_self {acc : List ScoreEntry} (l r : ColumnProfile)
    (hb : entryBound acc) :
    (matchStep acc l r).countP (keyMatches l r) = 1 := by
  rw [matchStep]
  split
  · next hk =>
      have h1 : 0 < acc.countP (keyMatches l r) := by
        rw [hasKey] at hk
        obtain ⟨e, he, hek⟩ := List.any_eq_true.mp hk
        refine List.countP_pos_iff.mpr ⟨e, he, ?_⟩
        rw [keyMatches]
        exact decide_eq_true (Or.inl (of_decide_eq_true hek))
      exact le_antisymm (hb l r) h1
  · split
    · next hk =>
        have h1 : 0 < acc.countP (keyMatches l r) := by
          rw [hasKey] at hk
          obtain ⟨e, he, hek⟩ := List.any_eq_true.mp hk
          refine List.countP_pos_iff.mpr ⟨e, he, ?_⟩
          rw [keyMatches]
          exact decide_eq_true (Or.inr (of_decide_eq_true hek))
        exact le_antisymm (hb l r) h1
    · next hk1 hk2 =>
        have hk1' : hasKey acc (NewColumnProfilePair l r) = false :=
          Bool.not_eq_true _ ▸ Bool.eq_false_iff.mpr hk1
        have hk2' : hasKey acc (NewColumnProfilePair r l) = false :=
          Bool.not_eq_true _ ▸ Bool.eq_false_iff.mpr hk2
        have hzero : acc.countP (keyMatches l r) = 0 := by
          rw [List.countP_eq_zero]
          intro e he
          rw [keyMatches]
          simp only [decide_eq_true_eq]
          push_neg
          exact ⟨(hasKey_false_iff acc _).mp hk1' e he,
                 (hasKey_false_iff acc _).mp hk2' e he⟩
        rw [List.countP_append, hzero]
        simp [keyMatches]

theorem matchStep_countP_le {acc : List ScoreEntry} (l r : ColumnProfile)
    (hb : entryBound acc) : entryBound (matchStep acc l r) := by
  intro p q
  rw [matchStep]
  split
  · exact hb p q
  · split
    · exact hb p q
    · next hk1 hk2 =>
        rw [List.countP_append]
        by_cases hpq : keyMatches p q (NewColumnProfilePair l r, matchColumns l r) = true
        · -- the new entry covers {p,q}, so {p,q} = {l,r} and the old count is 0
          have hzero : acc.countP (keyMatches p q) = 0 := by
            rw [List.countP_eq_zero]
            intro e he hkm
            rw [keyMatches] at hpq hkm
            have hk1' : hasKey acc (NewColumnProfilePair l r) = false :=
              Bool.not_eq_true _ ▸ Bool.eq_false_iff.mpr hk1
            have hk2' : hasKey acc (NewColumnProfilePair r l) = false :=
              Bool.not_eq_true _ ▸ Bool.eq_false_iff.mpr hk2
            have he1 := (hasKey_false_iff acc _).mp hk1' e he
            have he2 := (hasKey_false_iff acc _).mp hk2' e he
            rcases of_decide_eq_true hpq with hnew | hnew <;>
              rcases of_decide_eq_true hkm with hold | hold
            · -- key l r = key p q and e.1 = key p q
              exact he1 (by rw [hold, ← hnew])
            · exact he2 (by
                rw [hold]
                have h1 : l = p ∧ r = q := by
                  have := hnew
                  rw [NewColumnProfilePair, NewColumnProfilePair] at this
                  exact ⟨congrArg ColumnProfilePair.Left this,
                         congrArg ColumnProfilePair.Right this⟩
                rw [NewColumnProfilePair, NewColumnProfilePair]
                rw [h1.1, h1.2])
            · exact he2 (by
                rw [hold]
                have h1 : l = q ∧ r = p := by
                  rw [NewColumnProfilePair, NewColumnProfilePair] at hnew
                  exact ⟨congrArg ColumnProfilePair.Left hnew,
                         congrArg ColumnProfilePair.Right hnew⟩
                rw [NewColumnProfilePair, NewColumnProfilePair]
                rw [h1.1, h1.2])
            · exact he1 (by rw [hold, ← hnew])
          rw [hzero]
          simp only [List.countP_cons, List.countP_nil]
          split <;> omega
        · have : List.countP (keyMatches p q)
              [(NewColumnProfilePair l r, matchColumns l r)] = 0 := by
            rw [List.countP_eq_zero]
            intro e he
            rw [List.mem_singleton] at he
            subst he
            simpa using hpq
          rw [this]
          simpa using hb p q

theorem matchStep_countP_mono {acc : List ScoreEntry} (l r p q : ColumnProfile) :
    acc.countP (keyMatches p q) ≤ (matchStep acc l r).countP (keyMatches p q) := by
  rw [matchStep]
  split
  · exact le_refl _
  · split
    · exact le_refl _
    · rw [List.countP_append]; omega

theorem foldl_matchStep_props
    (ps : List (ColumnProfile × ColumnProfile)) :
    ∀ acc : List ScoreEntry, entryBound acc →
      entryBound (ps.foldl (fun a p => matchStep a p.1 p.2) acc) ∧
      (∀ l r : ColumnProfile, acc.countP (keyMatches l r) = 1 →
        (ps.foldl (fun a p => matchStep a p.1 p.2) acc).countP (keyMatches l r) = 1) ∧
      (∀ p ∈ ps,
        (ps.foldl (fun a p => matchStep a p.1 p.2) acc).countP
          (keyMatches p.1 p.2) = 1) := by
  induction ps with
  | nil =>
      intro acc hb
      exact ⟨hb, fun l r h => h, fun p hp => absurd hp (List.not_mem_nil p)⟩
  | cons hd tl ih =>
      intro acc hb
      have hb' : entryBound (matchStep acc hd.1 hd.2) :=
        matchStep_countP_le hd.1 hd.2 hb
      obtain ⟨ihb, ihpres, ihall⟩ := ih (matchStep acc hd.1 hd.2) hb'
      refine ⟨ihb, ?_, ?_⟩
      · intro l r h1
        refine ihpres l r (le_antisymm (hb' l r) ?_)
        calc 1 = acc.countP (keyMatches l r) := h1.symm
          _ ≤ (matchStep acc hd.1 hd.2).countP (keyMatches l r) :=
              matchStep_countP_mono hd.1 hd.2 l r
      · intro p hp
        rcases List.mem_cons.mp hp with rfl | hmem
        · exact ihpres p.1 p.2 (matchStep_countP_self p.1 p.2 hb)
        · exact ihall p hmem

theorem foldl_matchStep_entries
    (P : ScoreEntry → Prop) (ps : List (ColumnProfile × ColumnProfile)) :
    ∀ acc : List ScoreEntry, (∀ e ∈ acc, P e) →
      (∀ p ∈ ps, P (NewColumnProfilePair p.1 p.2, matchColumns p.1 p.2)) →
      ∀ e ∈ ps.foldl (fun a p => matchStep a p.1 p.2) acc, P e := by
  induction ps with
  | nil => intro acc hacc _ e he; exact hacc e he
  | cons hd tl ih =>
      intro acc hacc hps e he
      refine ih (matchStep acc hd.1 hd.2) ?_ (fun p hp => hps p (List.mem_cons_of_mem hd hp)) e he
      intro e' he'
      rw [matchStep] at he'
      split at he'
      · exact hacc e' he'
      · split at he'
        · exact hacc e' he'
        · rcases List.mem_append.mp he' with h | h
          · exact hacc e' h
          · rw [List.mem_singleton] at h
            subst h
            exact hps hd (List.mem_cons_self hd tl)

theorem mem_crossPairs {leftCps rightCps : List ColumnProfile}
    {l r : ColumnProfile} (hl : l ∈ leftCps) (hr : r ∈ rightCps) :
    (l, r) ∈ crossPairs leftCps rightCps := by
  rw [crossPairs]
  rw [List.mem_flatMap]
  exact ⟨l, hl, List.mem_map.mpr ⟨r, hr, rfl⟩⟩

theorem buildScores_countP {leftCps rightCps : List ColumnProfile}
    {l r : ColumnProfile} (hl : l ∈ leftCps) (hr : r ∈ rightCps) :
    (buildScores leftCps rightCps).countP (keyMatches l r) = 1 := by
  rw [buildScores]
  have hb0 : entryBound ([] : List ScoreEntry) := fun p q => by simp
  obtain ⟨_, _, hall⟩ := foldl_matchStep_props (crossPairs leftCps rightCps) [] hb0
  exact hall (l, r) (mem_crossPairs hl hr)

theorem buildScores_entries (leftCps rightCps : List ColumnProfile) :
    ∀ e ∈ buildScores leftCps rightCps,
      e.2 = matchColumns e.1.Left e.1.Right ∧
      e.1.Left ∈ leftCps ∧ e.1.Right ∈ rightCps := by
  rw [buildScores]
  refine foldl_matchStep_entries _ (crossPairs leftCps rightCps) [] (by simp) ?_
  intro p hp
  rw [crossPairs] at hp
  rw [List.mem_flatMap] at hp
  obtain ⟨a, ha, hmem⟩ := hp
  obtain ⟨b, hb, rfl⟩ := List.mem_map.mp hmem
  exact ⟨rfl, ha, hb⟩

theorem matchColumns_Left (a b : ColumnProfile) : (matchColumns a b).Left = a := rfl

theorem matchColumns_Right (a b : ColumnProfile) : (matchColumns a b).Right = b := rfl

theorem matchProfile_perm_buildScores (leftCps rightCps : List ColumnProfile) :
    List.Perm (matchProfile leftCps rightCps)
      ((buildScores leftCps rightCps).map Prod.snd) := by
  simpa [matchProfile, matchProfileWithOrder, sortByScoreDesc] using
    List.perm_insertionSort scoreGE ((buildScores leftCps rightCps).map Prod.snd)

theorem matchProfile_count_eq_one {leftCps rightCps : List ColumnProfile}
    {l r : ColumnProfile} (hl : l ∈ leftCps) (hr : r ∈ rightCps) :
    (matchProfile leftCps rightCps).countP
      (fun rec => sameUnorderedPair rec l r) = 1 := by
  rw [(matchProfile_perm_buildScores leftCps rightCps).countP_eq]
  rw [List.countP_map]
  rw [List.countP_congr (q := keyMatches l r) ?_]
  · exact buildScores_countP hl hr
  · intro e he
    obtain ⟨⟨kl, kr⟩, v⟩ := e
    obtain ⟨hval, _, _⟩ := buildScores_entries leftCps rightCps _ he
    simp only at hval
    subst hval
    simp [sameUnorderedPair, keyMatches, NewColumnProfilePair, NewColumnProfileID,
      matchColumns_Left, matchColumns_Right, ColumnProfilePair.mk.injEq,
      Function.comp]

theorem matchProfile_rec_mem (leftCps rightCps : List ColumnProfile) :
    ∀ rec ∈ matchProfile leftCps rightCps,
      rec.Left ∈ leftCps ∧ rec.Right ∈ rightCps := by
  intro rec hrec
  have hmem : rec ∈ (buildScores leftCps rightCps).map Prod.snd :=
    (matchProfile_perm_buildScores leftCps rightCps).mem_iff.mp hrec
  obtain ⟨e, he, rfl⟩ := List.mem_map.mp hmem
  obtain ⟨hval, hL, hR⟩ := buildScores_entries leftCps rightCps e he
  rw [hval, matchColumns_Left, matchColumns_Right]
  exact ⟨hL, hR⟩

/-! ## Concrete profiles used in the claim-level statements -/

/-- Strict descent of consecutive scores (the property claimed of the
matcher's output ordering). -/
def strictlyDescByScore : List ColumnProfilePairScores → Bool
  | [] => true
  | [_] => true
  | x :: y :: rest => decide (y.Score < x.Score) && strictlyDescByScore (y :: rest)

/-- A profile that ties with `tieB` on self-match score. -/
def tieA : ColumnProfile :=
  { Name := "a", DType := .integer, NullPct := 0, UniquePct := 100, Samples := [] }

/-- A profile that ties with `tieA` on self-match score. -/
def tieB : ColumnProfile :=
  { Name := "b", DType := .integer, NullPct := 0, UniquePct := 100, Samples := [] }

/-- Left column of the spec's end-to-end example. -/
def exLeftCustomer : ColumnProfile :=
  { Name := "customer_id", DType := .integer, NullPct := 0, UniquePct := 100,
    Samples := [] }

/-- First right column of the spec's end-to-end example. -/
def exRightCustId : ColumnProfile :=
  { Name := "cust_id", DType := .integer, NullPct := 0, UniquePct := 98,
    Samples := [] }

/-- Second right column of the spec's end-to-end example. -/
def exRightAddress : ColumnProfile :=
  { Name := "address", DType := .varchar, NullPct := 5, UniquePct := 80,
    Samples := [] }

/-! ## Claim theorems -/

/-- C1: the overlap score is *not* `matched_count / |union of both normalized
sets|`.  For left samples `["aaaaa"]` and right samples
`["aaaaa","aaaab","aaaac"]` at τ = 0.8, the full normalized union has three
elements and exactly one left value matches, so the claimed formula demands
1/3; the code returns 1 because the inner scan `break`s at the first match and
the unexamined right values never enter the `union` denominator. -/
theorem overlapScore_union_truncated_by_break :
    overlapScore ["aaaaa"] ["aaaaa", "aaaab", "aaaac"] 0.8 = 1 ∧
    goSet ((["aaaaa"] ++ ["aaaaa", "aaaab", "aaaac"]).map normVal) =
      ["aaaaa".data, "aaaab".data, "aaaac".data] ∧
    (1 : ℚ) ≠ 1 / 3 := by
  with_unfolding_all decide

/-- C2 counterexample: two profiles built from invalid declared-type strings
both carry the unset type, and their type-compatibility component is 1.0 (the
identical-type rule fires on the shared zero value), not the claimed
worst-case 0.0. -/
theorem bothUnknownTypes_score_one :
    IsValidDuckDBType "NOT_A_TYPE" = false ∧
    IsValidDuckDBType "whatever" = false ∧
    (ColumnProfile.zero.populateTableInfo "a" "NOT_A_TYPE").DType = Dtype.unset ∧
    (ColumnProfile.zero.populateTableInfo "b" "whatever").DType = Dtype.unset ∧
    baseTypeScore (ColumnProfile.zero.populateTableInfo "a" "NOT_A_TYPE").DType
      (ColumnProfile.zero.populateTableInfo "b" "whatever").DType = 1 ∧
    ¬ baseTypeScore (ColumnProfile.zero.populateTableInfo "a" "NOT_A_TYPE").DType
      (ColumnProfile.zero.populateTableInfo "b" "whatever").DType = 0 := by
  with_unfolding_all decide

/-- C2 (amended): an unrecognized declared-type string leaves the profile's
type unset without failing the build, and an unknown-typed profile scores the
worst-case 0.0 against every profile with a *known* type; but two
unknown-typed profiles score 1.0, because the identical-type rule fires on
the shared unset value. -/
theorem unknownType_worst_case_except_both_unknown
    (name dtype : String) (h : IsValidDuckDBType dtype = false)
    (t : Dtype) (ht : t ≠ Dtype.unset) :
    (ColumnProfile.zero.populateTableInfo name dtype).DType = Dtype.unset ∧
    baseTypeScore Dtype.unset t = 0 ∧
    baseTypeScore t Dtype.unset = 0 ∧
    baseTypeScore Dtype.unset Dtype.unset = 1 := by
  have hnone : dtypeOfString? dtype = none := by
    rw [IsValidDuckDBType] at h
    exact Option.not_isSome_iff_eq_none.mp (by simp [h])
  have hunset : ∀ u : Dtype, u ≠ Dtype.unset →
      baseTypeScore Dtype.unset u = 0 ∧ baseTypeScore u Dtype.unset = 0 := by
    with_unfolding_all decide
  refine ⟨?_, (hunset t ht).1, (hunset t ht).2, by with_unfolding_all decide⟩
  simp [ColumnProfile.populateTableInfo, hnone, ColumnProfile.zero]

/-- Witness for `unknownType_worst_case_except_both_unknown` at the invalid
type string `"BOGUS"` and the known type `INTEGER`. -/
theorem unknownType_worst_case_witness :
    (ColumnProfile.zero.populateTableInfo "a" "BOGUS").DType = Dtype.unset ∧
    baseTypeScore Dtype.unset Dtype.integer = 0 ∧
    baseTypeScore Dtype.integer Dtype.unset = 0 ∧
    baseTypeScore Dtype.unset Dtype.unset = 1 :=
  unknownType_worst_case_except_both_unknown "a" "BOGUS"
    (by with_unfolding_all decide) Dtype.integer (by decide)

/-- C3: the matcher's result list is not a function of the inputs alone: the
`scores` map's values are presented to the final sort in Go map iteration
order, which the language leaves unspecified, and the sort compares only
scores.  Two legal presentation orders (insertion order and its reverse) of
the same run yield different result lists — same score sequence, different
record order among the two tied records. -/
theorem matchProfile_order_dependent :
    matchProfileWithOrder id [tieA, tieB] [tieA, tieB] ≠
      matchProfileWithOrder List.reverse [tieA, tieB] [tieA, tieB] ∧
    (matchProfileWithOrder id [tieA, tieB] [tieA, tieB]).map
        ColumnProfilePairScores.Score =
      (matchProfileWithOrder List.reverse [tieA, tieB] [tieA, tieB]).map
        ColumnProfilePairScores.Score := by
  with_unfolding_all decide

/-- C4 counterexample: matching `[tieA, tieB]` against itself produces the
self-match records of `tieA` and `tieB` with equal scores 0.85, so the result
list is not *strictly* descending. -/
theorem matchProfile_not_strictly_descending :
    strictlyDescByScore (matchProfile [tieA, tieB] [tieA, tieB]) = false ∧
    (matchProfile [tieA, tieB] [tieA, tieB]).map ColumnProfilePairScores.Score =
      [0.85, 0.85, 0.55] := by
  with_unfolding_all decide

/-- C4 (amended): for every pair of profile collections (and every
presentation order of the score map's values) the matcher's result list is
sorted in *non-increasing* (weakly descending) score order; strictness fails
whenever two distinct pairs tie. -/
theorem matchProfile_sorted_descending
    (present : List ColumnProfilePairScores → List ColumnProfilePairScores)
    (leftCps rightCps : List ColumnProfile) :
    (matchProfileWithOrder present leftCps rightCps).Sorted scoreGE :=
  List.sorted_insertionSort scoreGE _

/-- C5: for every left/right profile collections and every `(l, r)` in the
cross product, exactly one result record covers the unordered pair `{l, r}`
(no duplicate and no mirrored duplicate), and every result record's profiles
come from the respective collections. -/
theorem matchProfile_one_score_per_unordered_pair
    (leftCps rightCps : List ColumnProfile) (l r : ColumnProfile)
    (hl : l ∈ leftCps) (hr : r ∈ rightCps) :
    (matchProfile leftCps rightCps).countP
      (fun rec => sameUnorderedPair rec l r) = 1 ∧
    ∀ rec ∈ matchProfile leftCps rightCps,
      rec.Left ∈ leftCps ∧ rec.Right ∈ rightCps :=
  ⟨matchProfile_count_eq_one hl hr, matchProfile_rec_mem leftCps rightCps⟩

/-- Witness for `matchProfile_one_score_per_unordered_pair` on the concrete
collections `[tieA, tieB]` × `[tieA]`. -/
theorem matchProfile_one_score_per_unordered_pair_witness :
    (matchProfile [tieA, tieB] [tieA]).countP
      (fun rec => sameUnorderedPair rec tieB tieA) = 1 ∧
    ∀ rec ∈ matchProfile [tieA, tieB] [tieA],
      rec.Left ∈ [tieA, tieB] ∧ rec.Right ∈ [tieA] :=
  matchProfile_one_score_per_unordered_pair [tieA, tieB] [tieA] tieB tieA
    (by simp) (by simp)

/-- C6: the composite score is the five-factor weighted sum
`0.30·name + 0.25·type + 0.20·unique + 0.15·overlap + 0.10·null`; with both
profiles' null and unique percentages in [0, 100] every component lies in
[0, 1], and so does the composite. -/
theorem matchColumns_formula_and_bounds (left right : ColumnProfile)
    (hln0 : 0 ≤ left.NullPct) (hln1 : left.NullPct ≤ 100)
    (hrn0 : 0 ≤ right.NullPct) (hrn1 : right.NullPct ≤ 100)
    (hlu0 : 0 ≤ left.UniquePct) (_hlu1 : left.UniquePct ≤ 100)
    (hru0 : 0 ≤ right.UniquePct) (_hru1 : right.UniquePct ≤ 100) :
    (matchColumns left right).Score =
      0.3 * columnNameScore left.Name right.Name +
      0.25 * baseTypeScore left.DType right.DType +
      0.2 * uniqueScore left.UniquePct right.UniquePct +
      0.15 * overlapScore left.Samples right.Samples 0.8 +
      0.1 * nullSimilarityScore left.NullPct right.NullPct ∧
    (0 ≤ columnNameScore left.Name right.Name ∧
      columnNameScore left.Name right.Name ≤ 1) ∧
    (0 ≤ baseTypeScore left.DType right.DType ∧
      baseTypeScore left.DType right.DType ≤ 1) ∧
    (0 ≤ uniqueScore left.UniquePct right.UniquePct ∧
      uniqueScore left.UniquePct right.UniquePct ≤ 1) ∧
    (0 ≤ overlapScore left.Samples right.Samples 0.8 ∧
      overlapScore left.Samples right.Samples 0.8 ≤ 1) ∧
    (0 ≤ nullSimilarityScore left.NullPct right.NullPct ∧
      nullSimilarityScore left.NullPct right.NullPct ≤ 1) ∧
    0 ≤ (matchColumns left right).Score ∧ (matchColumns left right).Score ≤ 1 := by
  obtain ⟨hn0, hn1⟩ := columnNameScore_mem_unit left.Name right.Name
  obtain ⟨ht0, ht1⟩ := baseTypeScore_mem_unit left.DType right.DType
  obtain ⟨hu0, hu1⟩ := uniqueScore_mem_unit hlu0 hru0
  obtain ⟨ho0, ho1⟩ := overlapScore_mem_unit left.Samples right.Samples 0.8
  obtain ⟨hz0, hz1⟩ := nullSimilarityScore_mem_unit hln0 hln1 hrn0 hrn1
  have hf : (matchColumns left right).Score =
      0.3 * columnNameScore left.Name right.Name +
      0.25 * baseTypeScore left.DType right.DType +
      0.2 * uniqueScore left.UniquePct right.UniquePct +
      0.15 * overlapScore left.Samples right.Samples 0.8 +
      0.1 * nullSimilarityScore left.NullPct right.NullPct := rfl
  refine ⟨hf, ⟨hn0, hn1⟩, ⟨ht0, ht1⟩, ⟨hu0, hu1⟩, ⟨ho0, ho1⟩, ⟨hz0, hz1⟩, ?_, ?_⟩
  · rw [hf]
    have p1 : (0:ℚ) ≤ 0.3 * columnNameScore left.Name right.Name :=
      mul_nonneg (by norm_num) hn0
    have p2 : (0:ℚ) ≤ 0.25 * baseTypeScore left.DType right.DType :=
      mul_nonneg (by norm_num) ht0
    have p3 : (0:ℚ) ≤ 0.2 * uniqueScore left.UniquePct right.UniquePct :=
      mul_nonneg (by norm_num) hu0
    have p4 : (0:ℚ) ≤ 0.15 * overlapScore left.Samples right.Samples 0.8 :=
      mul_nonneg (by norm_num) ho0
    have p5 : (0:ℚ) ≤ 0.1 * nullSimilarityScore left.NullPct right.NullPct :=
      mul_nonneg (by norm_num) hz0
    linarith
  · rw [hf]
    have q1 : 0.3 * columnNameScore left.Name right.Name ≤ 0.3 :=
      mul_le_of_le_one_right (by norm_num) hn1
    have q2 : 0.25 * baseTypeScore left.DType right.DType ≤ 0.25 :=
      mul_le_of_le_one_right (by norm_num) ht1
    have q3 : 0.2 * uniqueScore left.UniquePct right.UniquePct ≤ 0.2 :=
      mul_le_of_le_one_right (by norm_num) hu1
    have q4 : 0.15 * overlapScore left.Samples right.Samples 0.8 ≤ 0.15 :=
      mul_le_of_le_one_right (by norm_num) ho1
    have q5 : 0.1 * nullSimilarityScore left.NullPct right.NullPct ≤ 0.1 :=
      mul_le_of_le_one_right (by norm_num) hz1
    have hsum : (0.3 : ℚ) + 0.25 + 0.2 + 0.15 + 0.1 = 1 := by norm_num
    linarith

/-- Witness for `matchColumns_formula_and_bounds` at the end-to-end example
profiles. -/
theorem matchColumns_formula_and_bounds_witness :
    0 ≤ (matchColumns exLeftCustomer exRightCustId).Score ∧
    (matchColumns exLeftCustomer exRightCustId).Score ≤ 1 :=
  (matchColumns_formula_and_bounds exLeftCustomer exRightCustId
    (by norm_num [exLeftCustomer]) (by norm_num [exLeftCustomer])
    (by norm_num [exRightCustId]) (by norm_num [exRightCustId])
    (by norm_num [exLeftCustomer]) (by norm_num [exLeftCustomer])
    (by norm_num [exRightCustId]) (by norm_num [exRightCustId])).2.2.2.2.2.2

/-- C7: the tiers behave as claimed on the first two examples, but
`"first_name"` vs `"firstName"` scores 0.9, not the claimed 1.0: `tokenize`
lower-cases the whole name *before* its camelCase splitter scans for
upper-case letters, so `"firstName"` tokenizes to the single token
`"firstname"`, token Jaccard is 0, and the edit-distance tier's 0.9 wins. -/
theorem columnNameScore_camelCase_dead :
    columnNameScore "first_name" "firstName" = 0.9 ∧
    (0.9 : ℚ) ≠ 1 ∧
    tokenize "firstName" = ["firstname".data] ∧
    tokenize "first_name" = ["first".data, "name".data] ∧
    columnNameScore "customer_id" "customer_id" = 1 ∧
    columnNameScore "customer_id" "customer_identifier" = 0.8 := by
  with_unfolding_all decide

/-- C8: the type-compatibility score is symmetric on the whole (reachable)
type domain; identical types score 1.0; numeric/text cross-family pairs score
0.3 (both orders); boolean/temporal pairs score 0.0 (both orders); and
same-family non-identical pairs score 0.8. -/
theorem baseTypeScore_symmetric_and_tiered :
    ∀ a b : Dtype,
      baseTypeScore a b = baseTypeScore b a ∧
      (a = b → baseTypeScore a b = 1) ∧
      (isNumericDtype a = true → isTextDtype b = true → baseTypeScore a b = 0.3) ∧
      (isTextDtype a = true → isNumericDtype b = true → baseTypeScore a b = 0.3) ∧
      (a = Dtype.boolean → isTemporalDtype b = true → baseTypeScore a b = 0) ∧
      (isTemporalDtype a = true → b = Dtype.boolean → baseTypeScore a b = 0) ∧
      (sameFamily a b = true → a ≠ b → baseTypeScore a b = 0.8) := by
  with_unfolding_all decide

/-- Witness for `baseTypeScore_symmetric_and_tiered` at the pairs
`(INTEGER, VARCHAR)`, `(BOOLEAN, DATE)` and `(INTEGER, BIGINT)`. -/
theorem baseTypeScore_symmetric_and_tiered_witness :
    baseTypeScore Dtype.integer Dtype.varchar = 0.3 ∧
    baseTypeScore Dtype.boolean Dtype.date = 0 ∧
    baseTypeScore Dtype.integer Dtype.bigint = 0.8 :=
  ⟨(baseTypeScore_symmetric_and_tiered Dtype.integer Dtype.varchar).2.2.1 rfl rfl,
   (baseTypeScore_symmetric_and_tiered Dtype.boolean Dtype.date).2.2.2.2.1 rfl rfl,
   (baseTypeScore_symmetric_and_tiered Dtype.integer Dtype.bigint).2.2.2.2.2.2
     rfl (by decide)⟩

set_option maxRecDepth 1000000 in
/-- C9: on the spec's end-to-end example — `customer_id`/INTEGER/0/100 against
`cust_id`/INTEGER/0/98 and `address`/VARCHAR/5/80, all sample lists empty —
the first pair's composite score strictly exceeds the second pair's, and the
first pair scores above 0.7. -/
theorem endToEnd_customer_id_example :
    (matchColumns exLeftCustomer exRightCustId).Score >
      (matchColumns exLeftCustomer exRightAddress).Score ∧
    (matchColumns exLeftCustomer exRightCustId).Score > 0.7 := by
  with_unfolding_all decide

/-- C10: the empty column name scores 0.8 against every non-empty name: the
empty string is a substring of every string, so the substring tier fires
before the token and edit-distance tiers. -/
theorem columnNameScore_empty_name (n : String) (h : n ≠ "") :
    columnNameScore "" n = 0.8 := by
  have hdata : n.data ≠ [] := by
    intro hd
    exact h (String.ext (by rw [hd]))
  have hloweq : toLowerGo "" = "" := rfl
  have hne : toLowerGo "" ≠ toLowerGo n := by
    rw [hloweq]
    intro heq
    have hmap : n.data.map Char.toLower = [] := by
      have hdd := congrArg String.data heq
      simpa [toLowerGo] using hdd.symm
    exact hdata (List.map_eq_nil_iff.mp hmap)
  have hcont : goContains (toLowerGo n) (toLowerGo "") = true := by
    rw [hloweq]
    exact goContains_empty_sub _
  simp only [columnNameScore]
  rw [if_neg hne, if_pos (by rw [hcont, Bool.or_true])]

/-- Witness for `columnNameScore_empty_name` at the non-empty name `"id"`. -/
theorem columnNameScore_empty_name_witness :
    columnNameScore "" "id" = 0.8 :=
  columnNameScore_empty_name "id" (by decide)
